import Mathlib

set_option linter.unusedVariables false

/-!
Verification of the sr4all bulk-harvest subsystem.

This file gives a shallow embedding of the two dominant harvester scripts,
src/retrieval/1_oax_fetch_studies.py (sequential cursor harvest with shards,
checkpoint and resume, retrying transport, merge and deduplication) and
src/oax/excute_oax_queries.py (scout partitioning, shard workers, bounded
queue, per-query orchestration), and proves the testable properties stated
for them.  HTTP traffic is modelled by a deterministic oracle: the page
returned for cursor index i of a query is `server[i]`, so a run of the
embedded harvester corresponds to a run of the script in which the server
answers identically every time, which is the hypothesis under which the
resume property is stated.
-/

/-! ## Configuration constants (src/retrieval/1_oax_fetch_studies.py lines 28-40,
    src/oax/excute_oax_queries.py lines 12-18) -/

/-- save progress every N items (1_oax_fetch_studies.py line 33). -/
def SHARD_SIZE : Nat := 10000

/-- 1_oax_fetch_studies.py line 35. -/
def MAX_REQUEST_RETRIES : Nat := 10

/-- 1_oax_fetch_studies.py line 36. -/
def MAX_RATE_LIMIT_RETRIES : Nat := 1000

/-- 1_oax_fetch_studies.py line 37, as a rational number of seconds. -/
def BASE_BACKOFF_SECONDS : ℚ := 2

/-- 1_oax_fetch_studies.py line 38, as a rational number of seconds. -/
def MAX_BACKOFF_SECONDS : ℚ := 90

/-- If results < 2000, do not bother splitting by year (excute_oax_queries.py line 18). -/
def SHARDING_THRESHOLD : Nat := 2000

/-! ## Scout: get_year_shards (src/oax/excute_oax_queries.py lines 52-88)

The aggregate (group_by) response is modelled by `Option ScoutResponse`:
`none` is the case in which `fetch_json` gave up after its retries and
returned a falsy value, `some d` a parsed JSON body with the group list
`d.groups` (default `[]`) and the total count `d.count`
(default `0`, from `data.get("meta", {}).get("count", 0)`). -/

/-- A group_by key as it appears in the JSON: JSON null, an integer year,
    or a string such as "unknown". -/
inductive GroupKey
  | null
  | int (n : Int)
  | str (s : String)
deriving DecidableEq

/-- Python truthiness of a group key, used by `if year and ...`:
    None, 0 and the empty string are falsy. -/
def keyTruthy : GroupKey → Bool
  | .null => false
  | .int n => n != 0
  | .str s => s != ""

/-- Python str() of a group key, used by `str(year)`. -/
def keyStr : GroupKey → String
  | .null => "None"
  | .int n => toString n
  | .str s => s

/-- Python str.lower() restricted to character-wise lowering (the strings the
    harvester compares are ASCII). -/
def lowerStr (s : String) : String :=
  (s.toList.map Char.toLower).asString

structure ScoutResponse where
  groups : List GroupKey
  count : Nat
deriving DecidableEq

/-- The per-group guard of the scout loop:
    `if year and str(year).lower() != "unknown"` (excute_oax_queries.py line 84). -/
def validYearKey (k : GroupKey) : Bool :=
  keyTruthy k && (lowerStr (keyStr k) != "unknown")

/-- get_year_shards (excute_oax_queries.py lines 52-88).  Returns the list of
    partitions for one query: `none` stands for the absent filter (Python None,
    an unpartitioned fetch), `some f` for the filter string `f`. -/
def get_year_shards (data : Option ScoutResponse) : List (Option String) :=
  match data with
  | none => [none]
  | some d =>
    if d.count < SHARDING_THRESHOLD then [none]
    else (d.groups.filter validYearKey).map
      (fun k => some ("publication_year:" ++ keyStr k))

/-! ## Shard worker and per-query orchestration
    (src/oax/excute_oax_queries.py lines 90-186)

A worker result page is a list of optional id fields
(`item.get("id")`); the worker walks its cursor until the page is empty,
the fetch fails, or the continuation cursor is falsy, pushing every truthy
id.  As for the scout, the page oracle here models a server that always
answers, and the arrival interleaving of the single consumer is modelled
as per-shard concatenation: neither the source nor the spec promises any
cross-shard ordering. -/

/-- Keep an id only when `item.get("id")` is truthy (excute_oax_queries.py line 125). -/
def truthyId (o : Option String) : Option String :=
  match o with
  | some s => if s != "" then some s else none
  | none => none

/-- The cursor walk of fetch_shard_worker (excute_oax_queries.py lines 112-128):
    the k-th element of the page list is the `results` array served for the
    k-th cursor value; the walk stops at the first empty page or when the
    pages run out (falsy next_cursor). -/
def workerWalk : List (List (Option String)) → List String
  | [] => []
  | p :: ps => if p.isEmpty then [] else p.filterMap truthyId ++ workerWalk ps

/-- fetch_shard_worker (excute_oax_queries.py lines 90-128) for one partition. -/
def fetch_shard_worker (pagesFor : Option String → List (List (Option String)))
    (shard : Option String) : List String :=
  workerWalk (pagesFor shard)

/-- Observable outcome of process_query: the output file is opened for writing
    by file_writer unconditionally, the writer counts the ids it wrote, and
    that count is reported in the DONE line. -/
structure QueryRunResult where
  fileCreated : Bool
  writtenIds : List String
  reportedIds : Nat
deriving DecidableEq

/-- process_query (excute_oax_queries.py lines 151-186): scout, one worker per
    partition, single consumer draining the queue into the output file. -/
def process_query (scout : Option ScoutResponse)
    (pagesFor : Option String → List (List (Option String))) : QueryRunResult :=
  let shards := get_year_shards scout
  let ids := (shards.map (fetch_shard_worker pagesFor)).flatten
  { fileCreated := true, writtenIds := ids, reportedIds := ids.length }

/-! ## The bounded queue of process_query (asyncio.Queue, maxsize 10000)

`process_query` creates `asyncio.Queue(maxsize=10000)` and the workers push
with `queue.put_nowait(...)` (excute_oax_queries.py lines 126, 167).
`put_nowait` on a full queue raises QueueFull, modelled by `none`. -/

structure AsyncQueue (α : Type) where
  maxsize : Nat
  items : List α
deriving DecidableEq

/-- asyncio.Queue.full: a queue with positive maxsize is full when it holds
    at least maxsize items. -/
def AsyncQueue.isFull (q : AsyncQueue α) : Bool :=
  0 < q.maxsize && q.maxsize ≤ q.items.length

/-- asyncio.Queue.put_nowait: raises QueueFull (here `none`) when the queue
    is full, otherwise appends without blocking. -/
def AsyncQueue.put_nowait (q : AsyncQueue α) (x : α) : Option (AsyncQueue α) :=
  if q.isFull then none else some { q with items := q.items ++ [x] }

/-! ## Title normalization and deduplication
    (src/retrieval/1_oax_fetch_studies.py lines 95-135) -/

/-- ASCII reading of the regex class \w (word character). -/
def isWordChar (c : Char) : Bool := c.isAlphanum || c == '_'

/-- ASCII reading of the regex class \s (whitespace). -/
def isPySpace (c : Char) : Bool :=
  c == ' ' || c == '\t' || c == '\n' || c == '\r' || c == '\x0b' || c == '\x0c'

/-- Collapse adjacent spaces, the effect of re.sub(r"\s+", " ", t) after every
    whitespace character has been mapped to a plain space. -/
def squeezeSpaces : List Char → List Char
  | [] => []
  | [c] => [c]
  | a :: b :: rest =>
    if a == ' ' && b == ' ' then squeezeSpaces (b :: rest)
    else a :: squeezeSpaces (b :: rest)

/-- Python str.strip() on a list of characters in which every remaining
    whitespace character is a plain space. -/
def stripSpaces (l : List Char) : List Char :=
  ((l.dropWhile (· == ' ')).reverse.dropWhile (· == ' ')).reverse

/-- _normalize_title (1_oax_fetch_studies.py lines 95-101): falsy titles map to
    the empty string; otherwise lower-case, collapse whitespace runs to one
    space, delete characters outside \w and \s, and strip. -/
def _normalize_title (title : Option String) : String :=
  match title with
  | none => ""
  | some s =>
    if s.isEmpty then ""
    else
      let t := ((lowerStr s).toList.map (fun c => if isPySpace c then ' ' else c))
      let t := squeezeSpaces t
      let t := t.filter (fun c => isWordChar c || isPySpace c)
      (stripSpaces t).asString

/-- A record as _deduplicate reads it: the three fields w.get("doi"),
    w.get("id") and w.get("title"), each possibly absent. -/
structure PyRecord where
  doi : Option String
  id : Option String
  title : Option String
deriving DecidableEq

/-- Python truthiness of an optional string field. -/
def pyTruthy : Option String → Bool
  | none => false
  | some s => s != ""

/-- The string value of a truthy optional field (only read under `pyTruthy`). -/
def fieldVal (o : Option String) : String := o.getD ""

/-- The fold of _deduplicate (1_oax_fetch_studies.py lines 110-126) carrying the
    three seen-sets; returns the surviving records and the three per-stage
    removal counts (doi, id, title). -/
def dedupGo : List PyRecord → List String → List String → List String →
    List PyRecord × Nat × Nat × Nat
  | [], _, _, _ => ([], 0, 0, 0)
  | w :: ws, seenDoi, seenId, seenTitle =>
    let tnorm := _normalize_title w.title
    if pyTruthy w.doi && seenDoi.contains (fieldVal w.doi) then
      let r := dedupGo ws seenDoi seenId seenTitle
      (r.1, r.2.1 + 1, r.2.2.1, r.2.2.2)
    else if pyTruthy w.id && seenId.contains (fieldVal w.id) then
      let r := dedupGo ws seenDoi seenId seenTitle
      (r.1, r.2.1, r.2.2.1 + 1, r.2.2.2)
    else if !pyTruthy w.doi && !pyTruthy w.id && tnorm != "" &&
        seenTitle.contains tnorm then
      let r := dedupGo ws seenDoi seenId seenTitle
      (r.1, r.2.1, r.2.2.1, r.2.2.2 + 1)
    else
      let seenDoi := if pyTruthy w.doi then fieldVal w.doi :: seenDoi else seenDoi
      let seenId := if pyTruthy w.id then fieldVal w.id :: seenId else seenId
      let seenTitle := if !pyTruthy w.doi && !pyTruthy w.id && tnorm != ""
        then tnorm :: seenTitle else seenTitle
      let r := dedupGo ws seenDoi seenId seenTitle
      (w :: r.1, r.2.1, r.2.2.1, r.2.2.2)

/-- The statistics dictionary returned by _deduplicate
    (1_oax_fetch_studies.py lines 127-134). -/
structure DedupStats where
  input_total : Nat
  output_total : Nat
  filtered_doi : Nat
  filtered_id : Nat
  filtered_title : Nat
  filtered_total : Nat
deriving DecidableEq

/-- _deduplicate (1_oax_fetch_studies.py lines 103-135). -/
def _deduplicate (records : List PyRecord) : List PyRecord × DedupStats :=
  let r := dedupGo records [] [] []
  (r.1,
   { input_total := records.length
     output_total := r.1.length
     filtered_doi := r.2.1
     filtered_id := r.2.2.1
     filtered_title := r.2.2.2
     filtered_total := r.2.1 + r.2.2.1 + r.2.2.2 })

/-! ## Transport: _request_openalex_with_retries
    (src/retrieval/1_oax_fetch_studies.py lines 201-283)

One logical request is driven against a trace of attempt outcomes: the k-th
element of the trace is what the k-th `session.get` would produce (a
requests exception, or a response with a status code and an optional parsed
Retry-After header).  The function returns `none` when the trace runs out
while the loop would issue another attempt; every theorem below supplies a
long enough trace.  On success the source returns `(response, key_index)`;
the embedding returns the final rotation index, and the raised RuntimeError
messages are modelled by the constructors of `ReqError`. -/

/-- One attempt outcome: a network-level requests exception, or an HTTP
    response with its status code and optional Retry-After value. -/
inductive AttemptOutcome
  | exc
  | status (code : Nat) (retryAfter : Option ℚ)
deriving DecidableEq

/-- The typed failures of _request_openalex_with_retries, one constructor per
    distinct RuntimeError message:
    afterRetries n     = "OpenAlex request failed after n retries"
                         (lines 216-218 and 283),
    rateLimited n      = "OpenAlex request failed with HTTP 429 after n retries"
                         (lines 252-255),
    httpStatus code ta = "OpenAlex request failed with HTTP code after ta
                         transient retries" (lines 277-282). -/
inductive ReqError
  | afterRetries (n : Nat)
  | rateLimited (n : Nat)
  | httpStatus (code : Nat) (transientRetries : Nat)
deriving DecidableEq

/-- _request_openalex_with_retries (1_oax_fetch_studies.py lines 201-283),
    with `numKeys` the length of the api_keys rotation list and `ta`, `rla`,
    `ki` the transient_attempt, rate_limit_attempt and key_index counters. -/
def _request_openalex_with_retries (numKeys : Nat) :
    List AttemptOutcome → Nat → Nat → Nat → Option (Except ReqError Nat)
  | [], _, _, _ => none
  | o :: rest, ta, rla, ki =>
    let ki' := if 0 < numKeys then ki + 1 else ki
    match o with
    | .exc =>
      if MAX_REQUEST_RETRIES ≤ ta + 1 then
        some (.error (.afterRetries MAX_REQUEST_RETRIES))
      else _request_openalex_with_retries numKeys rest (ta + 1) rla ki'
    | .status code _ =>
      if code = 200 then some (.ok ki')
      else if code = 429 then
        if MAX_RATE_LIMIT_RETRIES ≤ rla + 1 then
          some (.error (.rateLimited MAX_RATE_LIMIT_RETRIES))
        else _request_openalex_with_retries numKeys rest ta (rla + 1) ki'
      else if 500 ≤ code ∧ code < 600 then
        if MAX_REQUEST_RETRIES ≤ ta + 1 then
          some (.error (.httpStatus code (ta + 1)))
        else _request_openalex_with_retries numKeys rest (ta + 1) rla ki'
      else if 400 ≤ code then some (.error (.httpStatus code ta))
      else some (.error (.afterRetries MAX_REQUEST_RETRIES))

/-- The transient-path sleep computation (1_oax_fetch_studies.py lines 220-221
    and 263-264): exponential backoff capped at MAX_BACKOFF_SECONDS plus the
    jitter j drawn by random.uniform(0, 1.0), before the retry that follows
    the k-th consecutive transient failure. -/
def transientBackoff (k : Nat) (j : ℚ) : ℚ :=
  min MAX_BACKOFF_SECONDS (BASE_BACKOFF_SECONDS * 2 ^ (k - 1)) + j

/-- The rate-limit sleep computation (1_oax_fetch_studies.py lines 237-245):
    a parseable Retry-After value is used capped at MAX_BACKOFF_SECONDS; a
    missing or unparseable header falls back to exponential backoff with the
    exponent clamped at 6; jitter is added in both cases. -/
def rateLimitSleep (rla : Nat) (retryAfter : Option ℚ) (j : ℚ) : ℚ :=
  (match retryAfter with
   | some ra => min MAX_BACKOFF_SECONDS ra
   | none => min MAX_BACKOFF_SECONDS (BASE_BACKOFF_SECONDS * 2 ^ (min (rla - 1) 6))) + j

/-! ## Checkpoint save and its crash behaviour
    (src/retrieval/1_oax_fetch_studies.py lines 186-195)

_save_checkpoint opens CHECKPOINT_PATH with mode "w" (truncating the file in
place) and then json.dump writes the serialized payload sequentially; there
is no temporary file and no rename.  The on-disk contents a crash can leave
behind are therefore: the previous contents (crash before open), or any
prefix of the new serialized payload (crash after the truncating open, at
any write position, including the empty file). -/

/-- All on-disk checkpoint file contents reachable by crashing
    _save_checkpoint at an arbitrary point, for previous contents `old` and
    new serialized payload `payload`. -/
def saveCheckpointCrashStates (old payload : List Char) : List (List Char) :=
  old :: (List.range (payload.length + 1)).map (fun k => payload.take k)

/-! ## The sequential harvester: fetch_openalex_full
    (src/retrieval/1_oax_fetch_studies.py lines 286-422)

The server is a deterministic page oracle `server : List (List α)`: the
response for cursor index i has results `server[i]` (out of range means an
empty results array) and carries a continuation cursor exactly when page
i + 1 exists.  The initial cursor "*" is page index 0, and the cursor
stored in a checkpoint is a page index.  Records are opaque (`α`).  The
on-disk state a run owns is its list of closed shard files and the optional
checkpoint file; the in-memory buffer is lost by a kill.  One recursion
step processes one page (request, skip, extend, flush and checkpoint,
advance), so the fuel argument counts pages processed: exhausting it models
killing the process at a page boundary, and `fuel = server.length + 1` is
always enough for an uninterrupted run. -/

/-- The checkpoint payload (1_oax_fetch_studies.py lines 188-193).  The
    updated_at_epoch timestamp is written but never read back by the
    program, so it is not modelled. -/
structure Checkpoint where
  next_cursor : Option Nat
  saved_count : Nat
  next_shard_idx : Nat
deriving DecidableEq

/-- The full state of one run of fetch_openalex_full: the open buffer, the
    closed shard files in order, the next shard index, the pulled counter,
    the remaining_to_skip counter, the on-disk checkpoint file, and whether
    the run reached its natural end (wrote the final shard and cleared the
    checkpoint). -/
structure FetchState (α : Type) where
  buffer : List α
  shards : List (List α)
  shardIdx : Nat
  pulled : Nat
  skip : Nat
  checkpoint : Option Checkpoint
  done : Bool
deriving DecidableEq

/-- data.get("results", []) for cursor index i. -/
def pageResults (server : List (List α)) (i : Nat) : List α :=
  (server[i]?).getD []

/-- data.get("meta", \x7b\x7d).get("next_cursor"): present exactly when a
    further page exists. -/
def pageNextCursor (server : List (List α)) (i : Nat) : Option Nat :=
  if i + 1 < server.length then some (i + 1) else none

/-- The guard `max_results is not None and pulled >= max_results`. -/
def reachedMax : Option Nat → Nat → Bool
  | none, _ => false
  | some m, pulled => m ≤ pulled

/-- The epilogue after the fetch loop (1_oax_fetch_studies.py lines 416-420):
    write the final, possibly under-full shard if the buffer is non-empty,
    then delete the checkpoint file. -/
def finishUp (st : FetchState α) : FetchState α :=
  if st.buffer.isEmpty then { st with checkpoint := none, done := true }
  else
    { st with
      buffer := [], shards := st.shards ++ [st.buffer],
      shardIdx := st.shardIdx + 1, checkpoint := none, done := true }

/-- The fetch loop of fetch_openalex_full (1_oax_fetch_studies.py lines
    347-414) followed by the epilogue: process pages from index i on, with
    at most `fuel` loop iterations before the process is killed. -/
def fetchGo (maxResults : Option Nat) (server : List (List α)) :
    Nat → Nat → FetchState α → FetchState α
  | 0, _, st => st
  | fuel + 1, i, st =>
    if reachedMax maxResults st.pulled then finishUp st
    else
      let works0 := pageResults server i
      if works0.isEmpty then finishUp st
      else
        let skipNow := min st.skip works0.length
        let works1 := works0.drop skipNow
        let skip' := st.skip - skipNow
        let works2 := match maxResults with
          | some m => works1.take (m - st.pulled)
          | none => works1
        let buffer' := st.buffer ++ works2
        let pulled' := st.pulled + works2.length
        if reachedMax maxResults pulled' then
          finishUp { st with buffer := buffer', pulled := pulled', skip := skip' }
        else
          let next := pageNextCursor server i
          let st' : FetchState α :=
            if SHARD_SIZE ≤ buffer'.length then
              { st with
                buffer := [], shards := st.shards ++ [buffer'],
                shardIdx := st.shardIdx + 1, pulled := pulled', skip := skip',
                checkpoint := if next.isSome then
                    some ⟨next, pulled', st.shardIdx + 1⟩ else st.checkpoint }
            else { st with buffer := buffer', pulled := pulled', skip := skip' }
          match next with
          | none => finishUp st'
          | some j => fetchGo maxResults server fuel j st'

/-- Insertion into a list of (index, contents) shard files kept ordered by
    index; used to model the sort of _discover_existing_shards. -/
def insertShardFile (x : Nat × List α) : List (Nat × List α) → List (Nat × List α)
  | [] => [x]
  | y :: ys => if x.1 ≤ y.1 then x :: y :: ys else y :: insertShardFile x ys

/-- Stable sort by shard index (`shard_files.sort(key=lambda x: x[0])`). -/
def sortShardFiles : List (Nat × List α) → List (Nat × List α)
  | [] => []
  | x :: xs => insertShardFile x (sortShardFiles xs)

/-- _discover_existing_shards (1_oax_fetch_studies.py lines 152-166): the
    on-disk part files as (parsed index, contents) pairs, returned in index
    order together with the next fresh shard index. -/
def _discover_existing_shards (files : List (Nat × List α)) :
    List (List α) × Nat :=
  let sorted := sortShardFiles files
  (sorted.map Prod.snd,
   match sorted.getLast? with
   | some p => p.1 + 1
   | none => 0)

/-- _count_records_in_shards (1_oax_fetch_studies.py lines 168-173). -/
def _count_records_in_shards (shards : List (List α)) : Nat :=
  (shards.map List.length).sum

/-- _merge_shards (1_oax_fetch_studies.py lines 145-150): concatenation of
    the shard file contents in order. -/
def _merge_shards (shardPaths : List (List α)) : List α :=
  shardPaths.flatten

/-- The state fetch_openalex_full starts its loop from: the start cursor
    (page index, "*" being 0) and the initial FetchState. -/
structure ResumeOutcome (α : Type) where
  startPage : Nat
  st : FetchState α
deriving DecidableEq

/-- The state of a first-ever run: nothing on disk, start at "*". -/
def initFetchState : FetchState α :=
  { buffer := [], shards := [], shardIdx := 0, pulled := 0, skip := 0,
    checkpoint := none, done := false }

/-- The resume block of fetch_openalex_full (1_oax_fetch_studies.py lines
    299-336), with RESUME_IF_SHARDS_EXIST = True: discover existing shards;
    if there are none, start clean.  Otherwise prepare the replay state
    (skip exactly the on-disk record count from cursor "*"), and if a
    checkpoint is present whose saved_count equals the on-disk count, whose
    next_cursor is truthy and whose next_shard_idx equals the discovered
    next shard index, start from the stored cursor with nothing to skip. -/
def resumeSetup (files : List (Nat × List α)) (cp : Option Checkpoint) :
    ResumeOutcome α :=
  let d := _discover_existing_shards files
  if d.1.isEmpty then ⟨0, initFetchState⟩
  else
    let cnt := _count_records_in_shards d.1
    let base : FetchState α :=
      { buffer := [], shards := d.1, shardIdx := d.2, pulled := cnt,
        skip := cnt, checkpoint := cp, done := false }
    match cp with
    | some c =>
      if c.saved_count = cnt ∧ c.next_cursor.isSome ∧ c.next_shard_idx = d.2 then
        ⟨c.next_cursor.getD 0, { base with skip := 0 }⟩
      else ⟨0, base⟩
    | none => ⟨0, base⟩

/-- fetch_openalex_full (1_oax_fetch_studies.py lines 286-422) against the
    page oracle `server`, with the on-disk shard files and checkpoint found
    at startup.  The fuel `server.length + 1` always exceeds the number of
    loop iterations, so this is the uninterrupted run. -/
def fetch_openalex_full (maxResults : Option Nat) (server : List (List α))
    (files : List (Nat × List α)) (cp : Option Checkpoint) : FetchState α :=
  let r := resumeSetup files cp
  fetchGo maxResults server (server.length + 1) r.startPage r.st

/-- The record stream a cursor walk starting at some page sees: pages
    concatenated up to the first empty results array. -/
def streamOf : List (List α) → List α
  | [] => []
  | p :: ps => if p.isEmpty then [] else p ++ streamOf ps

/-- The (index, contents) pairs of the part files a run leaves on disk,
    numbered from `i`. -/
def enumShards : Nat → List β → List (Nat × β)
  | _, [] => []
  | i, s :: ss => (i, s) :: enumShards (i + 1) ss

/-- Soundness of an on-disk checkpoint with respect to the record stream: its
    cursor is a page index from which the walk sees exactly the records after
    the first saved_count ones.  Every checkpoint a run writes satisfies
    this. -/
def cpInv (server : List (List α)) : Option Checkpoint → Prop
  | none => True
  | some c => ∃ j, c.next_cursor = some j ∧ j ≤ server.length ∧
      streamOf (server.drop j) = (streamOf server).drop c.saved_count ∧
      c.saved_count ≤ (streamOf server).length

/-! ## C4: scout partitioning -/

/-- C4: for every successful aggregate response, a total count below
    SHARDING_THRESHOLD yields exactly one unpartitioned Partition; a count at
    or above it yields one Partition per group whose key is truthy (non-empty)
    and not labeled "unknown" in any capitalisation; and a failed aggregate
    request fails open with a single unpartitioned Partition. -/
theorem C4_scout_partitioning (d : ScoutResponse) :
    (get_year_shards none = [none]) ∧
    (d.count < SHARDING_THRESHOLD → get_year_shards (some d) = [none]) ∧
    (SHARDING_THRESHOLD ≤ d.count →
      (get_year_shards (some d)).length = d.groups.countP validYearKey ∧
      (∀ p ∈ get_year_shards (some d), ∃ k ∈ d.groups, validYearKey k = true ∧
          p = some ("publication_year:" ++ keyStr k)) ∧
      (∀ k ∈ d.groups, validYearKey k = true →
          some ("publication_year:" ++ keyStr k) ∈ get_year_shards (some d))) := by
  refine ⟨rfl, fun h => by simp [get_year_shards, h], fun h => ?_⟩
  have hn : ¬ d.count < SHARDING_THRESHOLD := Nat.not_lt.mpr h
  refine ⟨?_, ?_, ?_⟩
  · simp [get_year_shards, hn, List.countP_eq_length_filter]
  · intro p hp
    simp only [get_year_shards, hn, if_false, List.mem_map, List.mem_filter] at hp
    obtain ⟨k, ⟨hk, hv⟩, rfl⟩ := hp
    exact ⟨k, hk, hv, rfl⟩
  · intro k hk hv
    simp only [get_year_shards, hn, if_false, List.mem_map, List.mem_filter]
    exact ⟨k, ⟨hk, hv⟩, rfl⟩

/-- Witness for C4 at a concrete aggregate response. -/
theorem C4_scout_partitioning_witness :
    (get_year_shards (some ⟨[GroupKey.int 2020, GroupKey.null, GroupKey.str "unknown",
        GroupKey.str "Unknown", GroupKey.int 2021], 5000⟩)).length =
      ([GroupKey.int 2020, GroupKey.null, GroupKey.str "unknown",
        GroupKey.str "Unknown", GroupKey.int 2021].countP validYearKey) ∧
    (get_year_shards (some ⟨[GroupKey.int 1999], 100⟩) = [none]) :=
  ⟨((C4_scout_partitioning ⟨[GroupKey.int 2020, GroupKey.null, GroupKey.str "unknown",
      GroupKey.str "Unknown", GroupKey.int 2021], 5000⟩).2.2 (by decide)).1,
   (C4_scout_partitioning ⟨[GroupKey.int 1999], 100⟩).2.1 (by decide)⟩

/-! ## C10: oversized query with no valid facet keys -/

/-- C10: when the aggregate succeeds with a count at or above
    SHARDING_THRESHOLD but every group key is falsy or labeled "unknown",
    the scout returns zero Partitions, so process_query launches no workers
    and fetches no result pages, yet still creates the output file and
    reports the query done with 0 ids. -/
theorem C10_no_valid_keys (d : ScoutResponse)
    (pagesFor : Option String → List (List (Option String)))
    (hcount : SHARDING_THRESHOLD ≤ d.count)
    (hkeys : ∀ k ∈ d.groups, validYearKey k = false) :
    get_year_shards (some d) = [] ∧
    process_query (some d) pagesFor =
      { fileCreated := true, writtenIds := [], reportedIds := 0 } := by
  have hn : ¬ d.count < SHARDING_THRESHOLD := Nat.not_lt.mpr hcount
  have hfilter : d.groups.filter validYearKey = [] := by
    rw [List.filter_eq_nil_iff]
    intro k hk
    simp [hkeys k hk]
  have hshards : get_year_shards (some d) = [] := by
    simp [get_year_shards, hn, hfilter]
  refine ⟨hshards, ?_⟩
  simp [process_query, hshards]

/-- Witness for C10 at a concrete degenerate aggregate response. -/
theorem C10_no_valid_keys_witness :
    get_year_shards (some ⟨[GroupKey.null, GroupKey.str "unknown", GroupKey.str "",
        GroupKey.int 0, GroupKey.str "Unknown"], 5000⟩) = [] ∧
    process_query (some ⟨[GroupKey.null, GroupKey.str "unknown", GroupKey.str "",
        GroupKey.int 0, GroupKey.str "Unknown"], 5000⟩) (fun _ => []) =
      { fileCreated := true, writtenIds := [], reportedIds := 0 } :=
  C10_no_valid_keys _ _ (by decide) (by decide)

/-! ## C8: the claimed blocking backpressure send -/

/-- C8: the worker send into a full Sink channel does not block until space
    is available: `queue.put_nowait` on the queue of capacity 10000 created
    by process_query raises QueueFull (modelled by `none`) when 10000
    unconsumed ids are already enqueued. -/
theorem C8_put_nowait_raises_on_full :
    (AsyncQueue.mk 10000 (List.replicate 10000 "W1")).put_nowait "W2" = none := by
  have hfull : (AsyncQueue.mk 10000 (List.replicate 10000 "W1")).isFull = true := by
    simp only [AsyncQueue.isFull, List.length_replicate]
    decide
  simp only [AsyncQueue.put_nowait, hfull, if_true]

/-! ## C3: checkpoint save is not atomic -/

/-- C3 counterexample: crashing _save_checkpoint mid-write can leave an
    on-disk state that is neither the complete previous checkpoint nor the
    complete new one. -/
theorem C3_counterexample :
    "ne".toList ∈ saveCheckpointCrashStates "old".toList "new".toList ∧
    "ne".toList ≠ "old".toList ∧ "ne".toList ≠ "new".toList := by decide

/-- C3 amended: _save_checkpoint truncates the checkpoint file in place and
    writes the new serialized payload sequentially (no temporary file, no
    rename), so a crash during Save leaves either the complete previous
    contents (crash before the truncating open) or some prefix of the new
    payload, possibly empty or partial. -/
theorem C3_save_crash_states (old payload s : List Char)
    (hs : s ∈ saveCheckpointCrashStates old payload) :
    s = old ∨ s <+: payload := by
  rcases List.mem_cons.mp hs with h | h
  · exact Or.inl h
  · obtain ⟨k, _, rfl⟩ := List.mem_map.mp h
    exact Or.inr ⟨payload.drop k, List.take_append_drop k payload⟩

/-- Witness for C3 at a concrete crash state. -/
theorem C3_save_crash_states_witness :
    "ne".toList = "old".toList ∨ "ne".toList <+: "new".toList :=
  C3_save_crash_states "old".toList "new".toList "ne".toList (by decide)

/-! ## C6: transport retry policy -/

/-- Consuming k consecutive network exceptions advances only the transient
    counter, as long as the budget is not yet exhausted. -/
theorem req_replicate_exc (k : Nat) :
    ∀ (ta rla ki : Nat) (rest : List AttemptOutcome), ta + k < MAX_REQUEST_RETRIES →
      _request_openalex_with_retries 0 (List.replicate k .exc ++ rest) ta rla ki =
        _request_openalex_with_retries 0 rest (ta + k) rla ki := by
  induction k with
  | zero => intro ta rla ki rest h; simp
  | succ n ih =>
    intro ta rla ki rest h
    rw [List.replicate_succ, List.cons_append]
    have hlt : ¬ MAX_REQUEST_RETRIES ≤ ta + 1 := by
      simp only [MAX_REQUEST_RETRIES] at h ⊢; omega
    simp only [_request_openalex_with_retries, hlt, if_false, Nat.lt_irrefl,
      if_neg (by omega : ¬ 0 < 0)]
    have := ih (ta + 1) rla ki rest (by omega)
    rw [this]
    congr 1
    omega

/-- Consuming k consecutive HTTP 500 responses advances only the transient
    counter, as long as the budget is not yet exhausted. -/
theorem req_replicate_500 (k : Nat) :
    ∀ (ta rla ki : Nat) (rest : List AttemptOutcome), ta + k < MAX_REQUEST_RETRIES →
      _request_openalex_with_retries 0 (List.replicate k (.status 500 none) ++ rest) ta rla ki =
        _request_openalex_with_retries 0 rest (ta + k) rla ki := by
  induction k with
  | zero => intro ta rla ki rest h; simp
  | succ n ih =>
    intro ta rla ki rest h
    rw [List.replicate_succ, List.cons_append]
    have hlt : ¬ MAX_REQUEST_RETRIES ≤ ta + 1 := by
      simp only [MAX_REQUEST_RETRIES] at h ⊢; omega
    simp only [_request_openalex_with_retries, hlt, if_false,
      if_neg (by omega : ¬ 0 < 0)]
    norm_num
    have := ih (ta + 1) rla ki rest (by omega)
    rw [this]
    congr 1
    omega

/-- Consuming k consecutive HTTP 429 responses advances only the rate-limit
    counter, as long as that budget is not yet exhausted. -/
theorem req_replicate_429 (k : Nat) :
    ∀ (ta rla ki : Nat) (rest : List AttemptOutcome), rla + k < MAX_RATE_LIMIT_RETRIES →
      _request_openalex_with_retries 0 (List.replicate k (.status 429 none) ++ rest) ta rla ki =
        _request_openalex_with_retries 0 rest ta (rla + k) ki := by
  induction k with
  | zero => intro ta rla ki rest h; simp
  | succ n ih =>
    intro ta rla ki rest h
    rw [List.replicate_succ, List.cons_append]
    have hlt : ¬ MAX_RATE_LIMIT_RETRIES ≤ rla + 1 := by
      simp only [MAX_RATE_LIMIT_RETRIES] at h ⊢; omega
    simp only [_request_openalex_with_retries, hlt, if_false,
      if_neg (by omega : ¬ 0 < 0)]
    norm_num
    have := ih ta (rla + 1) ki rest (by omega)
    rw [this]
    congr 1
    omega

/-- Splitting one element off a replicate prefix of a trace. -/
theorem replicate_succ_append (n : Nat) (a : α) (rest : List α) :
    List.replicate (n + 1) a ++ rest = List.replicate n a ++ (a :: rest) := by
  rw [List.replicate_succ', List.append_assoc, List.singleton_append]

/-- C6 counterexample: a request whose first MAX_REQUEST_RETRIES attempts are
    network errors and whose next attempt would succeed still fails, so the
    code performs at most MAX_REQUEST_RETRIES attempts, that is
    MAX_REQUEST_RETRIES - 1 retries, not MAX_REQUEST_RETRIES retries; and a
    parseable Retry-After of 300 seconds is not honored but capped at
    MAX_BACKOFF_SECONDS. -/
theorem C6_counterexample :
    _request_openalex_with_retries 0
      (List.replicate MAX_REQUEST_RETRIES .exc ++ [.status 200 none]) 0 0 0 =
      some (.error (.afterRetries MAX_REQUEST_RETRIES)) ∧
    rateLimitSleep 1 (some 300) 0 = MAX_BACKOFF_SECONDS := by
  constructor
  · rw [show (MAX_REQUEST_RETRIES : Nat) = 9 + 1 from rfl, replicate_succ_append,
      req_replicate_exc 9 0 0 0 _ (by decide)]
    simp [_request_openalex_with_retries, MAX_REQUEST_RETRIES]
  · norm_num [rateLimitSleep, MAX_BACKOFF_SECONDS]

/-- C6 amended: network errors and HTTP 5xx are retried up to
    MAX_REQUEST_RETRIES - 1 times (at most MAX_REQUEST_RETRIES attempts);
    HTTP 429 is retried up to MAX_RATE_LIMIT_RETRIES - 1 times against its
    own counter, and a 429 does not advance the transient budget; a
    parseable Retry-After value is honored capped at MAX_BACKOFF_SECONDS;
    any other non-2xx status fails immediately with no retry; and each
    exhaustion path returns an error naming the exhausted budget. -/
theorem C6_transport_retry_amended :
    (∀ rest : List AttemptOutcome,
      _request_openalex_with_retries 0
        (List.replicate (MAX_REQUEST_RETRIES - 1) .exc ++ [.status 200 none] ++ rest) 0 0 0 =
        some (.ok 0)) ∧
    (∀ rest : List AttemptOutcome,
      _request_openalex_with_retries 0
        (List.replicate MAX_REQUEST_RETRIES .exc ++ rest) 0 0 0 =
        some (.error (.afterRetries MAX_REQUEST_RETRIES))) ∧
    (∀ rest : List AttemptOutcome,
      _request_openalex_with_retries 0
        (List.replicate MAX_REQUEST_RETRIES (.status 500 none) ++ rest) 0 0 0 =
        some (.error (.httpStatus 500 MAX_REQUEST_RETRIES))) ∧
    (∀ rest : List AttemptOutcome,
      _request_openalex_with_retries 0
        (List.replicate (MAX_RATE_LIMIT_RETRIES - 1) (.status 429 none) ++
          List.replicate (MAX_REQUEST_RETRIES - 1) .exc ++ [.status 200 none] ++ rest) 0 0 0 =
        some (.ok 0)) ∧
    (∀ rest : List AttemptOutcome,
      _request_openalex_with_retries 0
        (List.replicate MAX_RATE_LIMIT_RETRIES (.status 429 none) ++ rest) 0 0 0 =
        some (.error (.rateLimited MAX_RATE_LIMIT_RETRIES))) ∧
    (∀ (code : Nat) (ra : Option ℚ) (rest : List AttemptOutcome),
      code ≠ 200 → code ≠ 429 → ¬ (500 ≤ code ∧ code < 600) → 400 ≤ code →
      _request_openalex_with_retries 0 (.status code ra :: rest) 0 0 0 =
        some (.error (.httpStatus code 0))) ∧
    (∀ (rla : Nat) (ra j : ℚ), ra ≤ MAX_BACKOFF_SECONDS →
      rateLimitSleep rla (some ra) j = ra + j) := by
  refine ⟨?_, ?_, ?_, ?_, ?_, ?_, ?_⟩
  · intro rest
    rw [List.append_assoc, req_replicate_exc (MAX_REQUEST_RETRIES - 1) 0 0 0
      ([AttemptOutcome.status 200 none] ++ rest) (by decide)]
    simp [_request_openalex_with_retries]
  · intro rest
    rw [show (MAX_REQUEST_RETRIES : Nat) = 9 + 1 from rfl, replicate_succ_append,
      req_replicate_exc 9 0 0 0 _ (by decide)]
    simp [_request_openalex_with_retries, MAX_REQUEST_RETRIES]
  · intro rest
    rw [show (MAX_REQUEST_RETRIES : Nat) = 9 + 1 from rfl, replicate_succ_append,
      req_replicate_500 9 0 0 0 _ (by decide)]
    simp [_request_openalex_with_retries, MAX_REQUEST_RETRIES]
  · intro rest
    rw [List.append_assoc, List.append_assoc,
      req_replicate_429 (MAX_RATE_LIMIT_RETRIES - 1) 0 0 0
        (List.replicate (MAX_REQUEST_RETRIES - 1) AttemptOutcome.exc ++
          ([AttemptOutcome.status 200 none] ++ rest)) (by decide),
      req_replicate_exc (MAX_REQUEST_RETRIES - 1) 0 (0 + (MAX_RATE_LIMIT_RETRIES - 1)) 0
        ([AttemptOutcome.status 200 none] ++ rest) (by decide)]
    simp [_request_openalex_with_retries]
  · intro rest
    rw [show (MAX_RATE_LIMIT_RETRIES : Nat) = 999 + 1 from rfl, replicate_succ_append,
      req_replicate_429 999 0 0 0 _ (by decide)]
    simp [_request_openalex_with_retries, MAX_RATE_LIMIT_RETRIES]
  · intro code ra rest h200 h429 h5xx h400
    simp [_request_openalex_with_retries, h200, h429, h5xx, h400]
  · intro rla ra j hra
    simp [rateLimitSleep, min_eq_right hra]

/-- Witness for C6 at concrete traces and header values. -/
theorem C6_transport_retry_amended_witness :
    (_request_openalex_with_retries 0
      (List.replicate (MAX_REQUEST_RETRIES - 1) .exc ++ [.status 200 none] ++ []) 0 0 0 =
      some (.ok 0)) ∧
    (_request_openalex_with_retries 0 (.status 404 none :: []) 0 0 0 =
      some (.error (.httpStatus 404 0))) ∧
    rateLimitSleep 5 (some 30) (1/2) = 30 + 1/2 :=
  ⟨C6_transport_retry_amended.1 [],
   (C6_transport_retry_amended.2.2.2.2.2.1) 404 none [] (by decide) (by decide)
     (by omega) (by decide),
   (C6_transport_retry_amended.2.2.2.2.2.2) 5 30 (1/2) (by norm_num [MAX_BACKOFF_SECONDS])⟩

/-! ## C7: backoff monotonicity and bounds -/

/-- C7: the delay slept before the k-th retry of a run of consecutive
    transient failures is min(MAX_BACKOFF, base * 2 ^ (k-1)) plus jitter in
    [0,1); it always lies in [base, cap+1), and while the deterministic part
    is still below the cap the delay is non-decreasing from one retry to the
    next regardless of the jitter drawn. -/
theorem C7_backoff_monotonicity (k : Nat) (j j' : ℚ) (hk : 1 ≤ k)
    (hj0 : 0 ≤ j) (hj1 : j < 1) (hj'0 : 0 ≤ j') (hj'1 : j' < 1) :
    (BASE_BACKOFF_SECONDS ≤ transientBackoff k j ∧
      transientBackoff k j < MAX_BACKOFF_SECONDS + 1) ∧
    (BASE_BACKOFF_SECONDS * 2 ^ (k - 1) < MAX_BACKOFF_SECONDS →
      transientBackoff k j ≤ transientBackoff (k + 1) j') := by
  have hpow1 : (1 : ℚ) ≤ 2 ^ (k - 1) := one_le_pow₀ (by norm_num)
  constructor
  · constructor
    · have : (2 : ℚ) ≤ 2 * 2 ^ (k - 1) := by nlinarith
      simp only [transientBackoff, BASE_BACKOFF_SECONDS, MAX_BACKOFF_SECONDS]
      have hmin : (2 : ℚ) ≤ min 90 (2 * 2 ^ (k - 1)) := le_min (by norm_num) this
      linarith
    · simp only [transientBackoff, BASE_BACKOFF_SECONDS, MAX_BACKOFF_SECONDS]
      have hmin : min (90 : ℚ) (2 * 2 ^ (k - 1)) ≤ 90 := min_le_left _ _
      linarith
  · intro hcap
    simp only [transientBackoff, BASE_BACKOFF_SECONDS, MAX_BACKOFF_SECONDS] at hcap ⊢
    have hk1 : k - 1 + 1 = k := Nat.succ_pred_eq_of_pos hk
    have hpowk : (2 : ℚ) * 2 ^ (k - 1) = 2 ^ k := by
      conv_rhs => rw [← hk1]
      rw [pow_succ]
      ring
    have hpowk1 : (2 : ℚ) * 2 ^ (k + 1 - 1) = 2 * 2 ^ k := by rw [Nat.add_sub_cancel]
    have hcast : (2 : ℚ) ^ k = ((2 ^ k : ℕ) : ℚ) := by push_cast; ring
    have hnat : (2 : ℕ) ^ k < 90 := by
      have : ((2 ^ k : ℕ) : ℚ) < 90 := by rw [← hcast, ← hpowk]; exact hcap
      exact_mod_cast this
    have hnat89 : ((2 ^ k : ℕ) : ℚ) ≤ 89 := by exact_mod_cast Nat.lt_succ_iff.mp hnat
    have h89 : (2 : ℚ) ^ k ≤ 89 := by rw [hcast]; exact hnat89
    have hx1 : (1 : ℚ) ≤ 2 ^ k := by
      calc (1 : ℚ) ≤ 2 ^ (k - 1) := hpow1
      _ ≤ 2 * 2 ^ (k - 1) := by nlinarith
      _ = 2 ^ k := hpowk
    have hmin1 : min (90 : ℚ) (2 * 2 ^ (k - 1)) = 2 * 2 ^ (k - 1) :=
      min_eq_right (le_of_lt hcap)
    have hmin2 : (2 : ℚ) ^ k + 1 ≤ min 90 (2 * 2 ^ k) := by
      refine le_min (by linarith) (by linarith)
    rw [hmin1, hpowk1, hpowk]
    linarith [hmin2]

/-- Witness for C7 at k = 3 with concrete jitters. -/
theorem C7_backoff_monotonicity_witness :
    (BASE_BACKOFF_SECONDS ≤ transientBackoff 3 (1/2) ∧
      transientBackoff 3 (1/2) < MAX_BACKOFF_SECONDS + 1) ∧
    transientBackoff 3 (1/2) ≤ transientBackoff 4 0 :=
  ⟨(C7_backoff_monotonicity 3 (1/2) 0 (by norm_num) (by norm_num) (by norm_num)
      (by norm_num) (by norm_num)).1,
   (C7_backoff_monotonicity 3 (1/2) 0 (by norm_num) (by norm_num) (by norm_num)
      (by norm_num) (by norm_num)).2
      (by norm_num [BASE_BACKOFF_SECONDS, MAX_BACKOFF_SECONDS])⟩

/-! ## C5: three-stage deduplication -/

/-- Count conservation of the dedup fold: every record is either kept or
    counted in exactly one of the three removal counters. -/
theorem dedupGo_count (l : List PyRecord) :
    ∀ s1 s2 s3 : List String,
      (dedupGo l s1 s2 s3).1.length +
        ((dedupGo l s1 s2 s3).2.1 + (dedupGo l s1 s2 s3).2.2.1 +
          (dedupGo l s1 s2 s3).2.2.2) = l.length := by
  induction l with
  | nil => intro s1 s2 s3; simp [dedupGo]
  | cons w ws ih =>
    intro s1 s2 s3
    simp only [dedupGo]
    split
    · have := ih s1 s2 s3
      simp only [List.length_cons]
      omega
    · split
      · have := ih s1 s2 s3
        simp only [List.length_cons]
        omega
      · split
        · have := ih s1 s2 s3
          simp only [List.length_cons]
          omega
        · have := ih (if pyTruthy w.doi then fieldVal w.doi :: s1 else s1)
            (if pyTruthy w.id then fieldVal w.id :: s2 else s2)
            (if !pyTruthy w.doi && !pyTruthy w.id && _normalize_title w.title != ""
              then _normalize_title w.title :: s3 else s3)
          simp only [List.length_cons]
          omega

/-- C5 counterexample: two records with neither DOI nor record identifier and
    identical (empty) normalized titles both survive, so "exactly one
    survives" fails for identical normalized titles in general. -/
theorem C5_counterexample :
    _normalize_title (some "!!") = _normalize_title (some "??") ∧
    (_deduplicate [⟨none, none, some "!!"⟩, ⟨none, none, some "??"⟩]).1.length = 2 := by
  decide

/-- C5 amended: for a pair of records processed on its own, two records with
    the same truthy DOI but different record identifiers keep exactly the
    first; two with the same truthy record identifier but different DOIs keep
    exactly the first; two with neither identifier and identical NON-EMPTY
    normalized titles keep exactly the first (an empty normalized title is
    never treated as a duplicate); each removal is counted in the matching
    per-stage counter, and for every input list
    output_total + filtered_total = input_total. -/
theorem C5_dedup_amended (a b : PyRecord) (l : List PyRecord) :
    (pyTruthy a.doi = true → a.doi = b.doi → a.id ≠ b.id →
      (_deduplicate [a, b]).1 = [a] ∧ (_deduplicate [a, b]).2.filtered_doi = 1) ∧
    (pyTruthy a.id = true → a.id = b.id → a.doi ≠ b.doi →
      (_deduplicate [a, b]).1 = [a] ∧ (_deduplicate [a, b]).2.filtered_id = 1) ∧
    (pyTruthy a.doi = false → pyTruthy a.id = false → pyTruthy b.doi = false →
      pyTruthy b.id = false → _normalize_title a.title = _normalize_title b.title →
      _normalize_title a.title ≠ "" →
      (_deduplicate [a, b]).1 = [a] ∧ (_deduplicate [a, b]).2.filtered_title = 1) ∧
    ((_deduplicate l).2.output_total + (_deduplicate l).2.filtered_total =
      (_deduplicate l).2.input_total) := by
  refine ⟨?_, ?_, ?_, ?_⟩
  · intro hda hdb hid
    have hb : pyTruthy b.doi = true := hdb ▸ hda
    have hfv : fieldVal b.doi = fieldVal a.doi := by rw [hdb]
    simp [_deduplicate, dedupGo, hda, hb, hfv]
  · intro hia hib hdoi
    have hb : pyTruthy b.id = true := hib ▸ hia
    have hfv : fieldVal b.id = fieldVal a.id := by rw [hib]
    by_cases hda : pyTruthy a.doi = true
    · have hnd : ¬ (pyTruthy b.doi = true ∧ fieldVal b.doi = fieldVal a.doi) := by
        rintro ⟨h1, h2⟩
        apply hdoi
        cases ha : a.doi with
        | none => simp [pyTruthy, ha] at hda
        | some x =>
          cases hbd : b.doi with
          | none => simp [pyTruthy, hbd] at h1
          | some y =>
            simp [fieldVal, ha, hbd] at h2
            rw [h2]
      simp [_deduplicate, dedupGo, hda, hia, hb, hfv, hnd]
    · have hda' : pyTruthy a.doi = false := by
        cases h : pyTruthy a.doi
        · rfl
        · exact absurd h hda
      simp [_deduplicate, dedupGo, hda', hia, hb, hfv]
  · intro h1 h2 h3 h4 ht hne
    have hmem : List.contains [_normalize_title a.title] (_normalize_title b.title) = true := by
      simp [ht]
    have hne2 : _normalize_title b.title ≠ "" := ht ▸ hne
    simp [_deduplicate, dedupGo, h1, h2, h3, h4, hne, hne2, hmem, ht]
  · have := dedupGo_count l [] [] []
    simp only [_deduplicate]
    omega

/-- Witness for C5 at concrete record pairs. -/
theorem C5_dedup_amended_witness :
    ((_deduplicate [⟨some "10.1/x", some "W1", none⟩, ⟨some "10.1/x", some "W2", none⟩]).1 =
      [⟨some "10.1/x", some "W1", none⟩] ∧
     (_deduplicate [⟨some "10.1/x", some "W1", none⟩,
        ⟨some "10.1/x", some "W2", none⟩]).2.filtered_doi = 1) ∧
    ((_deduplicate [⟨some "10.1/x", some "W1", none⟩, ⟨some "10.2/y", some "W1", none⟩]).1 =
      [⟨some "10.1/x", some "W1", none⟩] ∧
     (_deduplicate [⟨some "10.1/x", some "W1", none⟩,
        ⟨some "10.2/y", some "W1", none⟩]).2.filtered_id = 1) ∧
    ((_deduplicate [⟨none, none, some "A Title"⟩, ⟨none, none, some "a title!"⟩]).1 =
      [⟨none, none, some "A Title"⟩] ∧
     (_deduplicate [⟨none, none, some "A Title"⟩,
        ⟨none, none, some "a title!"⟩]).2.filtered_title = 1) ∧
    ((_deduplicate [⟨none, none, none⟩, ⟨some "d", some "i", some "t"⟩]).2.output_total +
      (_deduplicate [⟨none, none, none⟩, ⟨some "d", some "i", some "t"⟩]).2.filtered_total =
      (_deduplicate [⟨none, none, none⟩, ⟨some "d", some "i", some "t"⟩]).2.input_total) :=
  ⟨(C5_dedup_amended ⟨some "10.1/x", some "W1", none⟩ ⟨some "10.1/x", some "W2", none⟩ []).1
      (by decide) rfl (by decide),
   (C5_dedup_amended ⟨some "10.1/x", some "W1", none⟩ ⟨some "10.2/y", some "W1", none⟩ []).2.1
      (by decide) rfl (by decide),
   (C5_dedup_amended ⟨none, none, some "A Title"⟩ ⟨none, none, some "a title!"⟩ []).2.2.1
      (by decide) (by decide) (by decide) (by decide) (by decide) (by decide),
   (C5_dedup_amended ⟨none, none, none⟩ ⟨none, none, none⟩
      [⟨none, none, none⟩, ⟨some "d", some "i", some "t"⟩]).2.2.2⟩

/-! ## Machinery for the harvest loop proofs -/

theorem getElem?_eq_head?_drop (l : List α) (i : Nat) : l[i]? = (l.drop i).head? := by
  induction l generalizing i with
  | nil => simp
  | cons a l ih =>
    cases i with
    | zero => simp
    | succ n => simpa using ih n

theorem drop_succ_eq_tail (l : List α) (i : Nat) : l.drop (i + 1) = (l.drop i).tail := by
  induction l generalizing i with
  | nil => simp
  | cons a l ih =>
    cases i with
    | zero => simp
    | succ n => simpa using ih n

theorem pageResults_of_drop_nil {server : List (List α)} {i : Nat}
    (h : server.drop i = []) : pageResults server i = [] := by
  unfold pageResults
  rw [getElem?_eq_head?_drop, h]
  rfl

theorem pageResults_of_drop_cons {server : List (List α)} {i : Nat} {p : List α}
    {ps : List (List α)} (h : server.drop i = p :: ps) : pageResults server i = p := by
  unfold pageResults
  rw [getElem?_eq_head?_drop, h]
  rfl

theorem drop_succ_of_drop_cons {server : List (List α)} {i : Nat} {p : List α}
    {ps : List (List α)} (h : server.drop i = p :: ps) : server.drop (i + 1) = ps := by
  rw [drop_succ_eq_tail, h]
  rfl

theorem length_facts_of_drop_cons {server : List (List α)} {i : Nat} {p : List α}
    {ps : List (List α)} (h : server.drop i = p :: ps) :
    server.length - i = ps.length + 1 ∧ i < server.length := by
  have hlen := congrArg List.length h
  rw [List.length_drop] at hlen
  simp only [List.length_cons] at hlen
  constructor
  · exact hlen
  · omega

theorem pageNextCursor_of_drop_last {server : List (List α)} {i : Nat} {p : List α}
    (h : server.drop i = [p]) : pageNextCursor server i = none := by
  have hl := (length_facts_of_drop_cons h).1
  simp only [List.length_nil] at hl
  unfold pageNextCursor
  rw [if_neg (by omega)]

theorem pageNextCursor_of_drop_mid {server : List (List α)} {i : Nat} {p : List α}
    {ps : List (List α)} (h : server.drop i = p :: ps) (hps : ps ≠ []) :
    pageNextCursor server i = some (i + 1) := by
  have hl := (length_facts_of_drop_cons h).1
  have hpl : 0 < ps.length := List.length_pos.mpr hps
  unfold pageNextCursor
  rw [if_pos (by omega)]

theorem mem_of_drop_cons {server : List (List α)} {i : Nat} {p : List α}
    {ps : List (List α)} (h : server.drop i = p :: ps) : p ∈ server := by
  have : p ∈ server.drop i := by
    rw [h]
    exact List.mem_cons_self _ _
  exact List.mem_of_mem_drop this

theorem drop_min_self (l : List α) (s : Nat) : l.drop (min s l.length) = l.drop s := by
  rcases le_total s l.length with h | h
  · rw [min_eq_left h]
  · rw [min_eq_right h, List.drop_length, List.drop_eq_nil_of_le h]

theorem sub_min_self (s n : Nat) : s - min s n = s - n := by
  rcases le_total s n with h | h
  · rw [min_eq_left h]
    omega
  · rw [min_eq_right h]

theorem finishUp_flatten (st : FetchState α) :
    (finishUp st).shards.flatten = st.shards.flatten ++ st.buffer := by
  unfold finishUp
  by_cases hb : st.buffer.isEmpty
  · rw [if_pos hb]
    have : st.buffer = [] := by simpa using hb
    simp [this]
  · rw [if_neg hb]
    simp

theorem finishUp_pulled (st : FetchState α) : (finishUp st).pulled = st.pulled := by
  unfold finishUp
  split <;> rfl

theorem finishUp_checkpoint (st : FetchState α) : (finishUp st).checkpoint = none := by
  unfold finishUp
  split <;> rfl

theorem streamOf_cons_ne {p : List α} {ps : List (List α)} (hp : p ≠ []) :
    streamOf (p :: ps) = p ++ streamOf ps := by
  rw [show streamOf (p :: ps) = if p.isEmpty then [] else p ++ streamOf ps from rfl,
    if_neg (by simpa using hp)]

theorem fetchGo_step_empty {server : List (List α)} {i : Nat} (fuel : Nat)
    (st : FetchState α) (h : pageResults server i = []) :
    fetchGo none server (fuel + 1) i st = finishUp st := by
  conv_lhs => rw [fetchGo]
  simp [h, reachedMax]

theorem fetchGo_step_mid {server : List (List α)} {i : Nat} {p : List α}
    {ps : List (List α)} (fuel : Nat) (st : FetchState α)
    (hdrop : server.drop i = p :: ps) (hp : p ≠ []) (hps : ps ≠ []) :
    fetchGo none server (fuel + 1) i st =
      fetchGo none server fuel (i + 1)
        (if SHARD_SIZE ≤ (st.buffer ++ p.drop (min st.skip p.length)).length then
          { st with
            buffer := [],
            shards := st.shards ++ [st.buffer ++ p.drop (min st.skip p.length)],
            shardIdx := st.shardIdx + 1,
            pulled := st.pulled + (p.drop (min st.skip p.length)).length,
            skip := st.skip - min st.skip p.length,
            checkpoint := some ⟨some (i + 1),
              st.pulled + (p.drop (min st.skip p.length)).length, st.shardIdx + 1⟩ }
        else
          { st with
            buffer := st.buffer ++ p.drop (min st.skip p.length),
            pulled := st.pulled + (p.drop (min st.skip p.length)).length,
            skip := st.skip - min st.skip p.length }) := by
  have hpr := pageResults_of_drop_cons hdrop
  have hnext := pageNextCursor_of_drop_mid hdrop hps
  have hpe : p.isEmpty = false := by simpa using hp
  conv_lhs => rw [fetchGo]
  simp only [hpr, hnext, reachedMax, hpe, Bool.false_eq_true, if_false,
    Option.isSome_some, if_true]

theorem fetchGo_step_last {server : List (List α)} {i : Nat} {p : List α}
    (fuel : Nat) (st : FetchState α)
    (hdrop : server.drop i = [p]) (hp : p ≠ []) :
    fetchGo none server (fuel + 1) i st =
      finishUp
        (if SHARD_SIZE ≤ (st.buffer ++ p.drop (min st.skip p.length)).length then
          { st with
            buffer := [],
            shards := st.shards ++ [st.buffer ++ p.drop (min st.skip p.length)],
            shardIdx := st.shardIdx + 1,
            pulled := st.pulled + (p.drop (min st.skip p.length)).length,
            skip := st.skip - min st.skip p.length }
        else
          { st with
            buffer := st.buffer ++ p.drop (min st.skip p.length),
            pulled := st.pulled + (p.drop (min st.skip p.length)).length,
            skip := st.skip - min st.skip p.length }) := by
  have hpr := pageResults_of_drop_cons hdrop
  have hnext := pageNextCursor_of_drop_last hdrop
  have hpe : p.isEmpty = false := by simpa using hp
  conv_lhs => rw [fetchGo]
  simp only [hpr, hnext, reachedMax, hpe, Bool.false_eq_true, if_false,
    Option.isSome_none]

/-- Core conservation law of the fetch loop: an uninterrupted run started at
    page i with an arbitrary carried state ends with files whose merge is
    the carried files and buffer followed by the stream from page i minus
    the records still to be skipped. -/
theorem fetchGo_flatten (server : List (List α)) :
    ∀ (fuel i : Nat) (st : FetchState α), i ≤ server.length →
      server.length < fuel + i →
      (fetchGo none server fuel i st).shards.flatten =
        st.shards.flatten ++ st.buffer ++ (streamOf (server.drop i)).drop st.skip := by
  intro fuel
  induction fuel with
  | zero =>
    intro i st hi hfuel
    omega
  | succ fuel ih =>
    intro i st hi hfuel
    cases hdrop : server.drop i with
    | nil =>
      rw [fetchGo_step_empty fuel st (pageResults_of_drop_nil hdrop), finishUp_flatten]
      simp [streamOf]
    | cons p ps =>
      by_cases hp : p = []
      · rw [fetchGo_step_empty fuel st (by rw [pageResults_of_drop_cons hdrop, hp]),
          finishUp_flatten, hp]
        simp [streamOf]
      · by_cases hps : ps = []
        · subst hps
          rw [fetchGo_step_last fuel st hdrop hp, finishUp_flatten]
          rw [streamOf_cons_ne hp]
          by_cases hflush : SHARD_SIZE ≤ (st.buffer ++ p.drop (min st.skip p.length)).length
          · rw [if_pos hflush]
            simp [drop_min_self, streamOf, List.append_assoc]
          · rw [if_neg hflush]
            simp [drop_min_self, streamOf, List.append_assoc]
        · have hlen := (length_facts_of_drop_cons hdrop).1
          have hpl : 0 < ps.length := List.length_pos.mpr hps
          rw [fetchGo_step_mid fuel st hdrop hp hps]
          rw [ih (i + 1) _ (by omega) (by omega), drop_succ_of_drop_cons hdrop,
            streamOf_cons_ne hp, List.drop_append_eq_append_drop]
          by_cases hflush : SHARD_SIZE ≤ (st.buffer ++ p.drop (min st.skip p.length)).length
          · rw [if_pos hflush]
            simp [drop_min_self, sub_min_self, List.append_assoc]
          · rw [if_neg hflush]
            simp [drop_min_self, sub_min_self, List.append_assoc]

theorem finishUp_buffer (st : FetchState α) : (finishUp st).buffer = [] := by
  unfold finishUp
  split
  · next h => simpa using h
  · rfl

theorem cpInv_none (server : List (List α)) : cpInv server none := by
  unfold cpInv
  trivial

theorem finishUp_invariant {server : List (List α)} {st : FetchState α}
    (hA : st.shards.flatten ++ st.buffer = (streamOf server).take st.pulled)
    (hE : st.pulled ≤ (streamOf server).length) :
    ((finishUp st).shards.flatten ++ (finishUp st).buffer =
      (streamOf server).take (finishUp st).pulled ∧
     (finishUp st).pulled ≤ (streamOf server).length) ∧
    cpInv server (finishUp st).checkpoint := by
  refine ⟨⟨?_, ?_⟩, ?_⟩
  · rw [finishUp_flatten, finishUp_buffer, finishUp_pulled, List.append_nil]
    exact hA
  · rw [finishUp_pulled]
    exact hE
  · rw [finishUp_checkpoint]
    exact cpInv_none server

/-- Every state a first-ever (clean-start) run passes through keeps its
    durable data a prefix of the stream and its checkpoint sound, whether
    the run is killed (fuel runs out) or finishes. -/
theorem fetchGo_partial_invariant (server : List (List α)) :
    ∀ (fuel i : Nat) (st : FetchState α),
      st.skip = 0 →
      st.shards.flatten ++ st.buffer = (streamOf server).take st.pulled →
      streamOf (server.drop i) = (streamOf server).drop st.pulled →
      st.pulled ≤ (streamOf server).length →
      cpInv server st.checkpoint →
      ((fetchGo none server fuel i st).shards.flatten ++
          (fetchGo none server fuel i st).buffer =
        (streamOf server).take (fetchGo none server fuel i st).pulled ∧
       (fetchGo none server fuel i st).pulled ≤ (streamOf server).length) ∧
      cpInv server (fetchGo none server fuel i st).checkpoint := by
  intro fuel
  induction fuel with
  | zero =>
    intro i st hskip hA hB hE hcp
    exact ⟨⟨hA, hE⟩, hcp⟩
  | succ fuel ih =>
    intro i st hskip hA hB hE hcp
    cases hdrop : server.drop i with
    | nil =>
      rw [fetchGo_step_empty fuel st (pageResults_of_drop_nil hdrop)]
      exact finishUp_invariant hA hE
    | cons p ps =>
      by_cases hp : p = []
      · rw [fetchGo_step_empty fuel st (by rw [pageResults_of_drop_cons hdrop, hp])]
        exact finishUp_invariant hA hE
      · rw [hdrop, streamOf_cons_ne hp] at hB
        have hlendrop : ((streamOf server).drop st.pulled).length =
            (streamOf server).length - st.pulled := List.length_drop _ _
        have hplen : st.pulled + p.length ≤ (streamOf server).length := by
          rw [← hB] at hlendrop
          simp only [List.length_append] at hlendrop
          omega
        have hA' : (streamOf server).take (st.pulled + p.length) =
            (streamOf server).take st.pulled ++ p := by
          rw [List.take_add, ← hB, List.take_left]
        have hB' : streamOf ps = (streamOf server).drop (st.pulled + p.length) := by
          have h1 : ((streamOf server).drop st.pulled).drop p.length =
              (streamOf server).drop (st.pulled + p.length) := List.drop_drop _ _ _
          rw [← hB, List.drop_left] at h1
          exact h1
        by_cases hps : ps = []
        · subst hps
          rw [fetchGo_step_last fuel st hdrop hp, hskip]
          simp only [Nat.zero_min, List.drop_zero, Nat.zero_sub]
          by_cases hflush : SHARD_SIZE ≤ (st.buffer ++ p).length
          · rw [if_pos hflush]
            refine finishUp_invariant ?_ ?_
            · simp only [List.flatten_append, List.flatten_cons, List.flatten_nil,
                List.append_nil, hA']
              rw [← hA]
              simp [List.append_assoc]
            · exact hplen
          · rw [if_neg hflush]
            refine finishUp_invariant ?_ ?_
            · simp only [hA']
              rw [← hA]
              simp [List.append_assoc]
            · exact hplen
        · have hlen := (length_facts_of_drop_cons hdrop).1
          have hpl : 0 < ps.length := List.length_pos.mpr hps
          rw [fetchGo_step_mid fuel st hdrop hp hps, hskip]
          simp only [Nat.zero_min, List.drop_zero, Nat.zero_sub]
          by_cases hflush : SHARD_SIZE ≤ (st.buffer ++ p).length
          · rw [if_pos hflush]
            refine ih (i + 1) _ rfl ?_ ?_ ?_ ?_
            · simp only [List.flatten_append, List.flatten_cons, List.flatten_nil,
                List.append_nil, hA']
              rw [← hA]
              simp [List.append_assoc]
            · rw [drop_succ_of_drop_cons hdrop]
              exact hB'
            · exact hplen
            · unfold cpInv
              exact ⟨i + 1, rfl, by omega, by rw [drop_succ_of_drop_cons hdrop]; exact hB',
                hplen⟩
          · rw [if_neg hflush]
            refine ih (i + 1) _ rfl ?_ ?_ ?_ ?_
            · simp only [hA']
              rw [← hA]
              simp [List.append_assoc]
            · rw [drop_succ_of_drop_cons hdrop]
              exact hB'
            · exact hplen
            · exact hcp

theorem enumShards_fst_ge : ∀ (l : List β) (i : Nat) (x : Nat × β),
    x ∈ enumShards i l → i ≤ x.1 := by
  intro l
  induction l with
  | nil => intro i x hx; simp [enumShards] at hx
  | cons s ss ih =>
    intro i x hx
    simp only [enumShards, List.mem_cons] at hx
    rcases hx with rfl | hx
    · exact le_refl _
    · have := ih (i + 1) x hx
      omega

theorem insertShardFile_of_le {x : Nat × List α} :
    ∀ {l : List (Nat × List α)}, (∀ y ∈ l, x.1 ≤ y.1) → insertShardFile x l = x :: l := by
  intro l h
  cases l with
  | nil => rfl
  | cons y ys =>
    unfold insertShardFile
    rw [if_pos (h y (List.mem_cons_self _ _))]

theorem sortShardFiles_enumShards : ∀ (l : List (List α)) (i : Nat),
    sortShardFiles (enumShards i l) = enumShards i l := by
  intro l
  induction l with
  | nil => intro i; rfl
  | cons s ss ih =>
    intro i
    show insertShardFile (i, s) (sortShardFiles (enumShards (i + 1) ss)) = _
    rw [ih (i + 1)]
    exact insertShardFile_of_le (fun y hy => by
      have := enumShards_fst_ge ss (i + 1) y hy
      omega)

theorem enumShards_map_snd : ∀ (l : List β) (i : Nat),
    (enumShards i l).map Prod.snd = l := by
  intro l
  induction l with
  | nil => intro i; rfl
  | cons s ss ih => intro i; simp [enumShards, ih]

theorem enumShards_getLast? : ∀ (l : List β) (i : Nat), l ≠ [] →
    ∃ b, (enumShards i l).getLast? = some (i + l.length - 1, b) := by
  intro l
  induction l with
  | nil => intro i h; exact absurd rfl h
  | cons s ss ih =>
    intro i _
    cases ss with
    | nil => exact ⟨s, by simp [enumShards]⟩
    | cons t ts =>
      obtain ⟨b, hb⟩ := ih (i + 1) (by simp)
      refine ⟨b, ?_⟩
      show ((i, s) :: enumShards (i + 1) (t :: ts)).getLast? = _
      rw [show enumShards (i + 1) (t :: ts) = (i + 1, t) :: enumShards (i + 2) ts from rfl]
      rw [List.getLast?_cons_cons]
      rw [show (i + 1, t) :: enumShards (i + 2) ts = enumShards (i + 1) (t :: ts) from rfl]
      rw [hb]
      congr 2
      simp only [List.length_cons]
      omega

theorem discover_enumShards (shards : List (List α)) :
    _discover_existing_shards (enumShards 0 shards) = (shards, shards.length) := by
  unfold _discover_existing_shards
  rw [sortShardFiles_enumShards]
  dsimp only
  rw [enumShards_map_snd]
  cases hs : shards with
  | nil => rfl
  | cons s ss =>
    obtain ⟨b, hb⟩ := enumShards_getLast? (s :: ss) 0 (by simp)
    rw [hb]
    simp only [List.length_cons]
    congr 1
    omega

theorem count_records_eq_flatten_length (l : List (List α)) :
    _count_records_in_shards l = l.flatten.length := by
  unfold _count_records_in_shards
  induction l with
  | nil => rfl
  | cons s ss ih =>
    simp only [List.map_cons, List.sum_cons, List.flatten_cons, List.length_append, ih]

theorem eq_take_of_append_eq_take {l₁ l₂ s : List α} {n : Nat}
    (h : l₁ ++ l₂ = s.take n) : l₁ = s.take l₁.length := by
  have h1 : (l₁ ++ l₂).take l₁.length = l₁ := List.take_left _ _
  rw [h, List.take_take] at h1
  have hle : l₁.length ≤ n := by
    have hlen := congrArg List.length h
    rw [List.length_append, List.length_take] at hlen
    have := min_le_left n s.length
    omega
  rw [min_eq_left hle] at h1
  exact h1.symm

theorem append_drop_of_eq_take {l s : List α} (h : l = s.take l.length) :
    l ++ s.drop l.length = s := by
  nth_rewrite 1 [h]
  exact List.take_append_drop _ _

theorem resumeSetup_nil (cp : Option Checkpoint) :
    resumeSetup ([] : List (Nat × List α)) cp = ⟨0, initFetchState⟩ := rfl

theorem fetch_openalex_full_clean (server : List (List α)) (cp : Option Checkpoint) :
    fetch_openalex_full none server [] cp =
      fetchGo none server (server.length + 1) 0 initFetchState := rfl

theorem resumeSetup_enumShards (shards : List (List α)) (cp : Option Checkpoint)
    (hne : shards ≠ []) :
    resumeSetup (enumShards 0 shards) cp =
      (match cp with
       | some c =>
         if c.saved_count = _count_records_in_shards shards ∧ c.next_cursor.isSome ∧
             c.next_shard_idx = shards.length then
           ⟨c.next_cursor.getD 0,
            { buffer := [], shards := shards, shardIdx := shards.length,
              pulled := _count_records_in_shards shards, skip := 0,
              checkpoint := cp, done := false }⟩
         else
           ⟨0, { buffer := [], shards := shards, shardIdx := shards.length,
                 pulled := _count_records_in_shards shards,
                 skip := _count_records_in_shards shards,
                 checkpoint := cp, done := false }⟩
       | none =>
         ⟨0, { buffer := [], shards := shards, shardIdx := shards.length,
               pulled := _count_records_in_shards shards,
               skip := _count_records_in_shards shards,
               checkpoint := cp, done := false }⟩) := by
  unfold resumeSetup
  simp only [discover_enumShards]
  rw [if_neg (by simpa using hne)]

/-- C1: harvesting a Query, killing the process at any page-processing
    boundary (in particular after any number N of complete shards were
    written), and re-running with resume enabled yields a final merged
    record list identical to that of a clean uninterrupted run against the
    same server responses; in particular the final record count is equal,
    with zero records duplicated and zero records lost across the shard
    boundary where the checkpoint was taken. -/
theorem C1_idempotent_resume {α : Type} (server : List (List α)) (k : Nat) :
    _merge_shards (fetch_openalex_full none server
        (enumShards 0 ((fetchGo none server k 0 (initFetchState (α := α))).shards))
        ((fetchGo none server k 0 (initFetchState (α := α))).checkpoint)).shards =
      _merge_shards (fetch_openalex_full none server [] none).shards ∧
    (_merge_shards (fetch_openalex_full none server
        (enumShards 0 ((fetchGo none server k 0 (initFetchState (α := α))).shards))
        ((fetchGo none server k 0 (initFetchState (α := α))).checkpoint)).shards).length =
      (_merge_shards (fetch_openalex_full none server [] none).shards).length := by
  have hclean : (fetch_openalex_full none server [] none).shards.flatten =
      streamOf server := by
    rw [fetch_openalex_full_clean]
    have h := fetchGo_flatten server (server.length + 1) 0 initFetchState
      (Nat.zero_le _) (by omega)
    simpa [initFetchState] using h
  have hinv := fetchGo_partial_invariant server k 0 initFetchState rfl
    (by simp [initFetchState]) (by simp [initFetchState])
    (by simp [initFetchState]) (cpInv_none server)
  obtain ⟨⟨hA, hE⟩, hcp⟩ := hinv
  set killed := fetchGo none server k 0 (initFetchState (α := α)) with hkilled
  have hres : (fetch_openalex_full none server (enumShards 0 killed.shards)
      killed.checkpoint).shards.flatten = streamOf server := by
    by_cases hsnil : killed.shards = []
    · rw [hsnil]
      show (fetch_openalex_full none server (enumShards 0 [])
        killed.checkpoint).shards.flatten = _
      rw [show enumShards 0 ([] : List (List α)) = [] from rfl, fetch_openalex_full_clean]
      have h := fetchGo_flatten server (server.length + 1) 0 initFetchState
        (Nat.zero_le _) (by omega)
      simpa [initFetchState] using h
    · have hpre : killed.shards.flatten =
          (streamOf server).take killed.shards.flatten.length :=
        eq_take_of_append_eq_take hA
      have hcnt : _count_records_in_shards killed.shards =
          killed.shards.flatten.length := count_records_eq_flatten_length _
      unfold fetch_openalex_full
      rw [resumeSetup_enumShards killed.shards killed.checkpoint hsnil]
      cases hcpe : killed.checkpoint with
      | none =>
        dsimp only
        have h := fetchGo_flatten server (server.length + 1) 0
          { buffer := [], shards := killed.shards, shardIdx := killed.shards.length,
            pulled := _count_records_in_shards killed.shards,
            skip := _count_records_in_shards killed.shards,
            checkpoint := none, done := false } (Nat.zero_le _) (by omega)
        simp only at h
        rw [h, List.append_nil, List.drop_zero, hcnt]
        exact append_drop_of_eq_take hpre
      | some c =>
        rw [hcpe] at hcp
        dsimp only
        by_cases hcond : c.saved_count = _count_records_in_shards killed.shards ∧
            c.next_cursor.isSome ∧ c.next_shard_idx = killed.shards.length
        · rw [if_pos hcond]
          dsimp only
          unfold cpInv at hcp
          obtain ⟨j, hj, hjle, hjs, hsle⟩ := hcp
          have h := fetchGo_flatten server (server.length + 1) (c.next_cursor.getD 0)
            { buffer := [], shards := killed.shards, shardIdx := killed.shards.length,
              pulled := _count_records_in_shards killed.shards, skip := 0,
              checkpoint := some c, done := false }
            (by rw [hj]; simpa using hjle) (by omega)
          simp only at h
          rw [h, List.append_nil, List.drop_zero, hj]
          simp only [Option.getD_some]
          rw [hjs, hcond.1, hcnt]
          exact append_drop_of_eq_take hpre
        · rw [if_neg hcond]
          dsimp only
          have h := fetchGo_flatten server (server.length + 1) 0
            { buffer := [], shards := killed.shards, shardIdx := killed.shards.length,
              pulled := _count_records_in_shards killed.shards,
              skip := _count_records_in_shards killed.shards,
              checkpoint := some c, done := false } (Nat.zero_le _) (by omega)
          simp only at h
          rw [h, List.append_nil, List.drop_zero, hcnt]
          exact append_drop_of_eq_take hpre
  constructor
  · show (fetch_openalex_full none server (enumShards 0 killed.shards)
        killed.checkpoint).shards.flatten =
      (fetch_openalex_full none server [] none).shards.flatten
    rw [hres, hclean]
  · show ((fetch_openalex_full none server (enumShards 0 killed.shards)
        killed.checkpoint).shards.flatten).length =
      ((fetch_openalex_full none server [] none).shards.flatten).length
    rw [hres, hclean]

/-! ## C2: checkpoint reconciliation on startup -/

/-- C2 counterexample: one on-disk shard holding one record, and a checkpoint
    whose saved_count (1) equals the on-disk count and whose next_cursor is
    present, but whose next_shard_idx (5) differs from the discovered next
    shard index (1): the claimed two-condition iff demands the fast path, yet
    the code discards the checkpoint and replays from the initial cursor,
    skipping 1 record. -/
theorem C2_counterexample :
    (resumeSetup [(0, [42])] (some ⟨some 2, 1, 5⟩) : ResumeOutcome Nat).startPage = 0 ∧
    (resumeSetup [(0, [42])] (some ⟨some 2, 1, 5⟩) : ResumeOutcome Nat).st.skip = 1 ∧
    (Checkpoint.mk (some 2) 1 5).saved_count =
      _count_records_in_shards (_discover_existing_shards [(0, ([42] : List Nat))]).1 ∧
    (Checkpoint.mk (some 2) 1 5).next_cursor.isSome = true := by
  decide

/-- C2 amended: with existing shard files, the harvest resumes directly from
    the stored cursor if and only if the checkpoint satisfies all three
    checks: saved_count equals the record count of the on-disk shard files,
    a next_cursor is present, and next_shard_idx equals the next shard index
    discovered from the on-disk files.  In every other case, including a
    missing checkpoint, no error is surfaced and the walk replays from the
    initial cursor, discarding exactly the on-disk record count of incoming
    records before forwarding any record to the sink. -/
theorem C2_checkpoint_reconciliation {α : Type} (files : List (Nat × List α))
    (cp : Option Checkpoint)
    (hne : (_discover_existing_shards files).1 ≠ []) :
    (∀ c, cp = some c →
      ((c.saved_count = _count_records_in_shards (_discover_existing_shards files).1 ∧
          c.next_cursor.isSome ∧ c.next_shard_idx = (_discover_existing_shards files).2) →
        (resumeSetup files cp).startPage = c.next_cursor.getD 0 ∧
        (resumeSetup files cp).st.skip = 0 ∧
        (resumeSetup files cp).st.shards = (_discover_existing_shards files).1) ∧
      (¬(c.saved_count = _count_records_in_shards (_discover_existing_shards files).1 ∧
          c.next_cursor.isSome ∧ c.next_shard_idx = (_discover_existing_shards files).2) →
        (resumeSetup files cp).startPage = 0 ∧
        (resumeSetup files cp).st.skip =
          _count_records_in_shards (_discover_existing_shards files).1 ∧
        (resumeSetup files cp).st.shards = (_discover_existing_shards files).1)) ∧
    (cp = none →
      (resumeSetup files cp).startPage = 0 ∧
      (resumeSetup files cp).st.skip =
        _count_records_in_shards (_discover_existing_shards files).1 ∧
      (resumeSetup files cp).st.shards = (_discover_existing_shards files).1) := by
  constructor
  · rintro c rfl
    constructor
    · intro hcond
      unfold resumeSetup
      dsimp only
      rw [if_neg (by simpa using hne), if_pos hcond]
      exact ⟨rfl, rfl, rfl⟩
    · intro hcond
      unfold resumeSetup
      dsimp only
      rw [if_neg (by simpa using hne), if_neg hcond]
      exact ⟨rfl, rfl, rfl⟩
  · rintro rfl
    unfold resumeSetup
    dsimp only
    rw [if_neg (by simpa using hne)]
    exact ⟨rfl, rfl, rfl⟩

/-- Witness for C2 at concrete disks and checkpoints, one instance per
    reconciliation outcome. -/
theorem C2_checkpoint_reconciliation_witness :
    ((resumeSetup [(0, [7])] (some (Checkpoint.mk (some 3) 1 1)) :
        ResumeOutcome Nat).startPage = (some (3 : Nat)).getD 0 ∧
     (resumeSetup [(0, [7])] (some (Checkpoint.mk (some 3) 1 1)) :
        ResumeOutcome Nat).st.skip = 0) ∧
    ((resumeSetup [(0, [7])] (some (Checkpoint.mk (some 3) 2 1)) :
        ResumeOutcome Nat).startPage = 0 ∧
     (resumeSetup [(0, [7])] (some (Checkpoint.mk (some 3) 2 1)) :
        ResumeOutcome Nat).st.skip =
       _count_records_in_shards (_discover_existing_shards [(0, ([7] : List Nat))]).1) := by
  constructor
  · have h := ((C2_checkpoint_reconciliation [(0, [7])]
      (some (Checkpoint.mk (some 3) 1 1)) (by decide)).1 _ rfl).1 (by decide)
    exact ⟨h.1, h.2.1⟩
  · have h := ((C2_checkpoint_reconciliation [(0, [7])]
      (some (Checkpoint.mk (some 3) 2 1)) (by decide)).1 _ rfl).2 (by decide)
    exact ⟨h.1, h.2.1⟩

/-! ## C9: shard file size invariant -/

theorem finishUp_shards_extend (st : FetchState α) :
    ∃ t, st.shards ++ t = (finishUp st).shards := by
  unfold finishUp
  split
  · exact ⟨[], List.append_nil _⟩
  · exact ⟨[st.buffer], rfl⟩

theorem exists_append_trans {a b c : List β} (h1 : ∃ t, a ++ t = b)
    (h2 : ∃ t, b ++ t = c) : ∃ t, a ++ t = c := by
  obtain ⟨t1, rfl⟩ := h1
  obtain ⟨t2, rfl⟩ := h2
  exact ⟨t1 ++ t2, (List.append_assoc _ _ _).symm⟩

/-- Closed shard files are never reopened or modified: whatever state the
    loop continues from, its already-closed shard list is only ever
    extended. -/
theorem fetchGo_shards_extend (server : List (List α)) :
    ∀ (fuel i : Nat) (st : FetchState α),
      ∃ t, st.shards ++ t = (fetchGo none server fuel i st).shards := by
  intro fuel
  induction fuel with
  | zero => intro i st; exact ⟨[], List.append_nil _⟩
  | succ fuel ih =>
    intro i st
    cases hdrop : server.drop i with
    | nil =>
      rw [fetchGo_step_empty fuel st (pageResults_of_drop_nil hdrop)]
      exact finishUp_shards_extend st
    | cons p ps =>
      by_cases hp : p = []
      · rw [fetchGo_step_empty fuel st (by rw [pageResults_of_drop_cons hdrop, hp])]
        exact finishUp_shards_extend st
      · by_cases hps : ps = []
        · subst hps
          rw [fetchGo_step_last fuel st hdrop hp]
          refine exists_append_trans ?_ (finishUp_shards_extend _)
          by_cases hflush : SHARD_SIZE ≤ (st.buffer ++ p.drop (min st.skip p.length)).length
          · rw [if_pos hflush]
            exact ⟨[st.buffer ++ p.drop (min st.skip p.length)], rfl⟩
          · rw [if_neg hflush]
            exact ⟨[], List.append_nil _⟩
        · rw [fetchGo_step_mid fuel st hdrop hp hps]
          refine exists_append_trans ?_ (ih (i + 1) _)
          by_cases hflush : SHARD_SIZE ≤ (st.buffer ++ p.drop (min st.skip p.length)).length
          · rw [if_pos hflush]
            exact ⟨[st.buffer ++ p.drop (min st.skip p.length)], rfl⟩
          · rw [if_neg hflush]
            exact ⟨[], List.append_nil _⟩

theorem finishUp_shards_mem {st : FetchState α} {s : List α}
    (hs : s ∈ (finishUp st).shards) : s ∈ st.shards ∨ s = st.buffer := by
  unfold finishUp at hs
  split at hs
  · exact Or.inl hs
  · rcases List.mem_append.mp hs with h | h
    · exact Or.inl h
    · exact Or.inr (List.mem_singleton.mp h)

/-- Size bound on every shard the loop closes: a shard is written only once
    the buffer has reached SHARD_SIZE, and the whole buffer (at most one
    page beyond SHARD_SIZE) is written, so with pages of at most P records
    every new shard holds fewer than SHARD_SIZE + P records. -/
theorem fetchGo_shard_sizes (server : List (List α)) (P : Nat)
    (hP : ∀ p ∈ server, p.length ≤ P) :
    ∀ (fuel i : Nat) (st : FetchState α), st.buffer.length < SHARD_SIZE →
      ∀ s ∈ (fetchGo none server fuel i st).shards,
        s ∈ st.shards ∨ s.length < SHARD_SIZE + P := by
  have hpos : 0 < SHARD_SIZE := by decide
  intro fuel
  induction fuel with
  | zero =>
    intro i st hb s hs
    exact Or.inl hs
  | succ fuel ih =>
    intro i st hb s hs
    cases hdrop : server.drop i with
    | nil =>
      rw [fetchGo_step_empty fuel st (pageResults_of_drop_nil hdrop)] at hs
      rcases finishUp_shards_mem hs with h | h
      · exact Or.inl h
      · right
        rw [h]
        omega
    | cons p ps =>
      by_cases hp : p = []
      · rw [fetchGo_step_empty fuel st (by rw [pageResults_of_drop_cons hdrop, hp])] at hs
        rcases finishUp_shards_mem hs with h | h
        · exact Or.inl h
        · right
          rw [h]
          omega
      · have hw2 : (p.drop (min st.skip p.length)).length ≤ P := by
          have h1 : (p.drop (min st.skip p.length)).length ≤ p.length := by
            rw [List.length_drop]
            omega
          exact le_trans h1 (hP p (mem_of_drop_cons hdrop))
        have hbuf : (st.buffer ++ p.drop (min st.skip p.length)).length <
            SHARD_SIZE + P := by
          rw [List.length_append]
          omega
        by_cases hps : ps = []
        · subst hps
          rw [fetchGo_step_last fuel st hdrop hp] at hs
          by_cases hflush : SHARD_SIZE ≤ (st.buffer ++ p.drop (min st.skip p.length)).length
          · rw [if_pos hflush] at hs
            rcases finishUp_shards_mem hs with h | h
            · rcases List.mem_append.mp h with h' | h'
              · exact Or.inl h'
              · right
                rw [List.mem_singleton.mp h']
                exact hbuf
            · right
              rw [h]
              simpa using by omega
          · rw [if_neg hflush] at hs
            rcases finishUp_shards_mem hs with h | h
            · exact Or.inl h
            · right
              rw [h]
              simp only [List.length_append]
              omega
        · rw [fetchGo_step_mid fuel st hdrop hp hps] at hs
          by_cases hflush : SHARD_SIZE ≤ (st.buffer ++ p.drop (min st.skip p.length)).length
          · rw [if_pos hflush] at hs
            rcases ih (i + 1) _ (by simpa using hpos) s hs with h | h
            · rcases List.mem_append.mp h with h' | h'
              · exact Or.inl h'
              · right
                rw [List.mem_singleton.mp h']
                exact hbuf
            · exact Or.inr h
          · rw [if_neg hflush] at hs
            rcases ih (i + 1) _ (by simpa using hflush) s hs with h | h
            · exact Or.inl h
            · exact Or.inr h

/-- C9 counterexample: when a response page carries SHARD_SIZE + 1 records,
    the harvester closes a single shard holding SHARD_SIZE + 1 records,
    because the flush writes the whole buffer once its length has reached
    SHARD_SIZE; so a closed shard can exceed SHARD_SIZE records. -/
theorem C9_counterexample :
    ((fetch_openalex_full none [List.replicate (SHARD_SIZE + 1) ()] [] none).shards.map
      List.length) = [SHARD_SIZE + 1] ∧ SHARD_SIZE < SHARD_SIZE + 1 := by
  constructor
  · have hdrop : ([List.replicate (SHARD_SIZE + 1) ()] : List (List Unit)).drop 0 =
        [List.replicate (SHARD_SIZE + 1) ()] := rfl
    have hp : List.replicate (SHARD_SIZE + 1) () ≠ [] := by
      rw [List.replicate_succ]
      exact List.cons_ne_nil _ _
    rw [fetch_openalex_full_clean]
    rw [show ([List.replicate (SHARD_SIZE + 1) ()] : List (List Unit)).length + 1 = 1 + 1
      from rfl]
    rw [fetchGo_step_last 1 initFetchState hdrop hp]
    have hcond : SHARD_SIZE ≤ ((initFetchState (α := Unit)).buffer ++
        (List.replicate (SHARD_SIZE + 1) ()).drop
          (min (initFetchState (α := Unit)).skip
            (List.replicate (SHARD_SIZE + 1) ()).length)).length := by
      rw [show (initFetchState (α := Unit)).buffer = [] from rfl,
        show (initFetchState (α := Unit)).skip = 0 from rfl,
        List.nil_append, drop_min_self, List.drop_zero, List.length_replicate]
      omega
    rw [if_pos hcond]
    unfold finishUp
    split
    · rw [show (initFetchState (α := Unit)).shards = ([] : List (List Unit)) from rfl,
        show (initFetchState (α := Unit)).buffer = ([] : List Unit) from rfl,
        show (initFetchState (α := Unit)).skip = 0 from rfl,
        drop_min_self, List.drop_zero, List.nil_append, List.nil_append]
      dsimp only
      rw [List.map_cons, List.map_nil, List.length_replicate]
    · next hne => exact absurd rfl hne
  · omega

/-- C9 amended: a shard is closed as soon as the buffer holds at least
    SHARD_SIZE records, and the whole buffer is written, so with response
    pages of at most P records every closed shard holds fewer than
    SHARD_SIZE + P records (not at most SHARD_SIZE); the closed-shard list
    is append-only (closed shards are never reopened or modified); and on
    stream end everything pulled is in the shard files, the last possibly
    under-full. -/
theorem C9_shard_size_amended {α : Type} (server : List (List α)) (P : Nat)
    (hP : ∀ p ∈ server, p.length ≤ P) :
    (∀ s ∈ (fetch_openalex_full none server [] none).shards,
      s.length < SHARD_SIZE + P) ∧
    (∀ (fuel i : Nat) (st : FetchState α),
      ∃ t, st.shards ++ t = (fetchGo none server fuel i st).shards) ∧
    _merge_shards (fetch_openalex_full none server [] none).shards = streamOf server := by
  refine ⟨?_, fetchGo_shards_extend server, ?_⟩
  · intro s hs
    rw [fetch_openalex_full_clean] at hs
    have h := fetchGo_shard_sizes server P hP (server.length + 1) 0 initFetchState
      (by simp [initFetchState, SHARD_SIZE]) s hs
    rcases h with h | h
    · simp [initFetchState] at h
    · exact h
  · show (fetch_openalex_full none server [] none).shards.flatten = streamOf server
    rw [fetch_openalex_full_clean]
    have h := fetchGo_flatten server (server.length + 1) 0 initFetchState
      (Nat.zero_le _) (by omega)
    simpa [initFetchState] using h

/-- Witness for C9 at a concrete server with pages of at most 2 records. -/
theorem C9_shard_size_amended_witness :
    (∀ s ∈ (fetch_openalex_full none [[1, 2], [3]] ([] : List (Nat × List Nat))
        none).shards, s.length < SHARD_SIZE + 2) ∧
    _merge_shards (fetch_openalex_full none [[1, 2], [3]]
        ([] : List (Nat × List Nat)) none).shards = streamOf [[1, 2], [3]] :=
  ⟨(C9_shard_size_amended [[1, 2], [3]] 2 (by decide)).1,
   (C9_shard_size_amended [[1, 2], [3]] 2 (by decide)).2.2⟩
